import Mathlib

/-!
Verification of the event-dispatch and entry-point scheduling core of
`pythoneda-shared-pythonlang/application` (file
`src/pythoneda/shared/application/pythoneda.py`, class `PythonEDA`).

The embedding models:
* events (`Event`) carrying a runtime type tag, dispatched by type;
* listener classes (`Listener`) as returned by `EventListener.listeners_for`;
* the dispatch engine `PythonEDA.accept` (`acceptFuel`, fuel-indexed since the
  Python recursion is unbounded on cyclic event graphs);
* the emission gateway `PythonEDA.emit` (`emit`);
* the dedup helper `PythonEDA.extend_missing_items` (`extend_missing_items`);
* the entry-point scheduler `PythonEDA.accept_input`, together with
  `PythonEDA.delegate_priority` and `PythonEDA.get_primary_port_instance`.

An invocation trace (`TraceEntry`) instruments listener invocations, scheduled
emissions and self-trigger calls; the closure computation itself is a direct
translation of the Python control flow.
-/

namespace Pythoneda

/-- An event value: `type` models the Python runtime class used as dispatch
key (`event.__class__`), `payload` distinguishes events of the same class.
Equality models Python `==`, used by `extend_missing_items`'s `in` check. -/
structure Event where
  type : Nat
  payload : Nat
deriving DecidableEq

/-- The argument of `PythonEDA.accept(eventOrEvents)`: `None`, a single event
(not an `Iterable`), or an iterable of events. -/
inductive EventInput where
  | noEvent : EventInput
  | one : Event → EventInput
  | many : List Event → EventInput

/-- A listener class as yielded by `EventListener.listeners_for`: its identity,
whether it is a `PrimaryPort` subclass, its `is_one_shot_compatible` class
attribute, and its `accept` class method (the list of events it returns). -/
structure Listener where
  id : Nat
  isPrimaryPort : Bool
  is_one_shot_compatible : Bool
  accept : Event → List Event

/-- The read-only state `PythonEDA.accept` and `PythonEDA.emit` consult:
the listener bindings (`EventListener.listeners_for`, keyed by event type),
each event's `maybe_trigger` method, the `self._one_shot` flag, and the
adapters `Ports.instance().resolve(EventEmitter)` returns (a registered
adapter can in principle be `None`, which `emit` skips). -/
structure AppConfig where
  listeners_for : Nat → List Listener
  maybe_trigger : Event → List Event
  one_shot : Bool
  event_emitters : List (Option Nat)

/-- Observable side effects of one `accept` run: a listener class's `accept`
being awaited, `asyncio.create_task(self.emit(new_event))` being scheduled,
and an event's `maybe_trigger` being awaited. -/
inductive TraceEntry where
  | listenerInvoked (listenerId : Nat) (e : Event)
  | emitScheduled (e : Event)
  | selfTriggerCalled (e : Event)
deriving DecidableEq

/-- `PythonEDA.extend_missing_items(first, second)`:
`[first.append(item) for item in second if item not in first]`, where `first`
is mutated in place; modelled as returning the extended list. -/
def extend_missing_items {α : Type} [DecidableEq α] (first second : List α) : List α :=
  second.foldl (fun acc item => if item ∈ acc then acc else acc ++ [item]) first

/-- Specification-side companion of `extend_missing_items`: the elements of
`second`, in `second`'s order, that are not already present in the accumulated
`first` (so duplicates inside `second` are kept once). Used to state C10. -/
def added_items {α : Type} [DecidableEq α] (first second : List α) : List α :=
  second.foldl (fun acc item => if item ∈ first ++ acc then acc else acc ++ [item]) []

theorem extend_missing_items_nil {α : Type} [DecidableEq α] (first : List α) :
    extend_missing_items first [] = first := rfl

theorem extend_missing_items_cons {α : Type} [DecidableEq α] (first : List α)
    (x : α) (s : List α) :
    extend_missing_items first (x :: s) =
      extend_missing_items (if x ∈ first then first else first ++ [x]) s := rfl

theorem mem_extend_missing_items_left {α : Type} [DecidableEq α] {a : α} :
    ∀ (s first : List α), a ∈ first → a ∈ extend_missing_items first s := by
  intro s
  induction s with
  | nil => intro first h; exact h
  | cons x s ih =>
    intro first h
    rw [extend_missing_items_cons]
    apply ih
    by_cases hx : x ∈ first
    · simpa [hx] using h
    · simp [hx]
      exact Or.inl h

theorem mem_extend_missing_items_right {α : Type} [DecidableEq α] {a : α} :
    ∀ (s first : List α), a ∈ s → a ∈ extend_missing_items first s := by
  intro s
  induction s with
  | nil => intro first h; cases h
  | cons x s ih =>
    intro first h
    rw [extend_missing_items_cons]
    rcases List.mem_cons.mp h with h | h
    · subst h
      apply mem_extend_missing_items_left
      by_cases hx : a ∈ first <;> simp [hx]
    · exact ih _ h

theorem extend_missing_items_sub {α : Type} [DecidableEq α] {a : α} :
    ∀ (s first : List α), a ∈ extend_missing_items first s → a ∈ first ∨ a ∈ s := by
  intro s
  induction s with
  | nil => intro first h; exact Or.inl h
  | cons x s ih =>
    intro first h
    rw [extend_missing_items_cons] at h
    rcases ih _ h with h' | h'
    · by_cases hx : x ∈ first
      · rw [if_pos hx] at h'; exact Or.inl h'
      · rw [if_neg hx] at h'
        rcases List.mem_append.mp h' with h'' | h''
        · exact Or.inl h''
        · exact Or.inr (List.mem_cons.mpr (Or.inl (List.mem_singleton.mp h'')))
    · exact Or.inr (List.mem_cons_of_mem _ h')

theorem count_extend_missing_items {α : Type} [DecidableEq α] (a : α) :
    ∀ (s first : List α),
      (extend_missing_items first s).count a =
        if a ∈ first then first.count a else if a ∈ s then 1 else 0 := by
  intro s
  induction s with
  | nil =>
    intro first
    by_cases h : a ∈ first
    · simp [extend_missing_items_nil, h]
    · simp [extend_missing_items_nil, h, List.count_eq_zero]
  | cons x s ih =>
    intro first
    rw [extend_missing_items_cons, ih]
    by_cases hx : x ∈ first
    · rw [if_pos hx]
      by_cases ha : a ∈ first
      · simp [ha]
      · have hax : a ≠ x := fun h => ha (h ▸ hx)
        simp [ha, List.mem_cons, hax]
    · rw [if_neg hx]
      by_cases ha : a ∈ first
      · have hax : a ≠ x := fun h => hx (h ▸ ha)
        have : a ∈ first ++ [x] := List.mem_append.mpr (Or.inl ha)
        simp [ha, this, List.count_append, hax]
      · by_cases hax : a = x
        · subst hax
          have : a ∈ first ++ [a] := List.mem_append.mpr (Or.inr (List.mem_singleton.mpr rfl))
          simp [ha, this, List.count_append, List.count_eq_zero.mpr ha]
        · have : a ∉ first ++ [x] := by
            intro h
            rcases List.mem_append.mp h with h' | h'
            · exact ha h'
            · exact hax (List.mem_singleton.mp h')
          simp [ha, this, List.mem_cons, hax]

theorem extend_missing_items_of_forall_mem {α : Type} [DecidableEq α] :
    ∀ (s first : List α), (∀ x ∈ s, x ∈ first) → extend_missing_items first s = first := by
  intro s
  induction s with
  | nil => intro first _; rfl
  | cons x s ih =>
    intro first h
    rw [extend_missing_items_cons, if_pos (h x (List.mem_cons_self x s))]
    exact ih _ fun y hy => h y (List.mem_cons_of_mem _ hy)

theorem extend_missing_items_append_aux {α : Type} [DecidableEq α] (first : List α) :
    ∀ (s acc : List α),
      extend_missing_items (first ++ acc) s =
        first ++ s.foldl (fun acc2 item => if item ∈ first ++ acc2 then acc2 else acc2 ++ [item]) acc := by
  intro s
  induction s with
  | nil => intro acc; rfl
  | cons x s ih =>
    intro acc
    rw [extend_missing_items_cons]
    by_cases hx : x ∈ first ++ acc
    · rw [if_pos hx]
      have hx' : x ∈ first ∨ x ∈ acc := List.mem_append.mp hx
      simpa [hx'] using ih acc
    · rw [if_neg hx]
      have hx' : ¬(x ∈ first ∨ x ∈ acc) := fun h => hx (List.mem_append.mpr h)
      simpa [List.append_assoc, hx'] using ih (acc ++ [x])

theorem extend_missing_items_eq_append {α : Type} [DecidableEq α] (first second : List α) :
    extend_missing_items first second = first ++ added_items first second := by
  have h := extend_missing_items_append_aux first second []
  simpa [added_items] using h

end Pythoneda

namespace Pythoneda

/-- The one-shot filter of `PythonEDA.accept`:
`not self.one_shot or (not issubclass(listener_class, PrimaryPort) or
listener_class.is_one_shot_compatible)`. -/
def listenerAllowed (oneShot : Bool) (L : Listener) : Bool :=
  !oneShot || (!L.isPrimaryPort || L.is_one_shot_compatible)

/-- One iteration of the inner listener loop of `PythonEDA.accept`: if the
one-shot filter passes, await `listener_class.accept(event)`, schedule an
emission task per resulting event, and, when the result list is non-empty,
merge it into `first_events` with `extend_missing_items`. The pair carries
(`first_events`, trace so far). -/
def listenerStep (cfg : AppConfig) (event : Event)
    (acc : List Event × List TraceEntry) (L : Listener) : List Event × List TraceEntry :=
  if listenerAllowed cfg.one_shot L then
    let res := L.accept event
    let tr := acc.2 ++ TraceEntry.listenerInvoked L.id event :: res.map TraceEntry.emitScheduled
    if res.isEmpty then (acc.1, tr) else (extend_missing_items acc.1 res, tr)
  else acc

/-- The listener loop of `PythonEDA.accept` for one event:
`for listener_class in EventListener.listeners_for(event.__class__): ...`,
starting from the accumulated `first_events`; the trace component collects
this event's entries only. -/
def fanOutListeners (cfg : AppConfig) (event : Event) (fe0 : List Event) :
    List Event × List TraceEntry :=
  (cfg.listeners_for event.type).foldl (listenerStep cfg event) (fe0, [])

/-- Processing of one event in `PythonEDA.accept`: the listener loop followed
by `triggered = await event.maybe_trigger()` and, if `len(triggered) > 0`,
`extend_missing_items(first_events, triggered)`. -/
def fanOutEvent (cfg : AppConfig) (fe0 : List Event) (event : Event) :
    List Event × List TraceEntry :=
  let fl := fanOutListeners cfg event fe0
  let triggered := cfg.maybe_trigger event
  let tr := fl.2 ++ [TraceEntry.selfTriggerCalled event]
  if triggered.isEmpty then (fl.1, tr) else (extend_missing_items fl.1 triggered, tr)

/-- Folding step over the events of the input (`for event in events:`),
threading `first_events` and appending each event's trace. -/
def eventStep (cfg : AppConfig) (acc : List Event × List TraceEntry) (event : Event) :
    List Event × List TraceEntry :=
  let fl := fanOutEvent cfg acc.1 event
  (fl.1, acc.2 ++ fl.2)

/-- The first generation of `PythonEDA.accept`: `first_events` (with its
trace) after the `for event in events:` loop, starting from the empty list. -/
def firstGeneration (cfg : AppConfig) (events : List Event) :
    List Event × List TraceEntry :=
  events.foldl (eventStep cfg) ([], [])

/-- The value of `result` before the recursion in `PythonEDA.accept`:
`result = []` extended with `first_events` when
`len(first_events) > 0`. -/
def firstResult (cfg : AppConfig) (events : List Event) : List Event :=
  if (firstGeneration cfg events).1.isEmpty then []
  else extend_missing_items [] (firstGeneration cfg events).1

/-- The list of events `PythonEDA.accept` iterates over: `[]` for `None`
(falsy), the singleton for a single event (an `Event` is not an `Iterable`
and is truthy), and the list itself for an iterable (empty iff falsy). -/
def eventsOf : EventInput → List Event
  | EventInput.noEvent => []
  | EventInput.one e => [e]
  | EventInput.many es => es

/-- One iteration of the recursion loop of `PythonEDA.accept`:
`extend_missing_items(aux, await self.accept(evt))`, where `f` is the
recursive call on a single event; a `none` (fuel exhaustion) aborts the
whole computation. -/
def recurseStep (f : Event → Option (List Event × List TraceEntry))
    (acc : Option (List Event × List TraceEntry)) (evt : Event) :
    Option (List Event × List TraceEntry) :=
  match acc with
  | none => none
  | some p =>
    match f evt with
    | none => none
    | some q => some (extend_missing_items p.1 q.1, p.2 ++ q.2)

/-- `PythonEDA.accept(eventOrEvents)` with an explicit recursion-depth fuel
(the Python recursion is unbounded on cyclic event graphs). On falsy input
the body is skipped and `[]` is returned; otherwise the first generation is
computed, each `evt` in `result` is recursed on (`aux` collection), and
`result` is extended with `aux`. `none` models fuel exhaustion only — it
never occurs on falsy input, matching the Python early return. -/
def acceptFuel (cfg : AppConfig) : Nat → EventInput → Option (List Event × List TraceEntry)
  | 0, input => if (eventsOf input).isEmpty then some ([], []) else none
  | fuel + 1, input =>
    match (firstResult cfg (eventsOf input)).foldl
        (recurseStep (fun evt => acceptFuel cfg fuel (EventInput.one evt)))
        (some ([], (firstGeneration cfg (eventsOf input)).2)) with
    | none => none
    | some p => some (extend_missing_items (firstResult cfg (eventsOf input)) p.1, p.2)

/-- `PythonEDA.accept_one_shot(flag)`: sets the `one_shot` property. -/
def accept_one_shot (cfg : AppConfig) (flag : Bool) : AppConfig :=
  { cfg with one_shot := flag }

/-- One iteration of the emitter loop of `PythonEDA.emit`: a `None` adapter
is skipped, any other adapter's `emit` is awaited with the event. -/
def emitStep (e : Event) (acc : List (Nat × Event)) (em : Option Nat) :
    List (Nat × Event) :=
  match em with
  | none => acc
  | some emitter => acc ++ [(emitter, e)]

/-- `PythonEDA.emit(event)`: `if event:` resolve all `EventEmitter` adapters
and call each non-`None` one with the event. The returned list is the ordered
list of (adapter, event) calls performed. -/
def emit (cfg : AppConfig) (event : Option Event) : List (Nat × Event) :=
  match event with
  | none => []
  | some e => cfg.event_emitters.foldl (emitStep e) []

/-- Soundness predicate on trace entries: every recorded listener invocation
comes from a listener bound to the event's type that passed the one-shot
filter. -/
def soundEntry (cfg : AppConfig) : TraceEntry → Prop
  | TraceEntry.listenerInvoked i e =>
      ∃ L, L ∈ cfg.listeners_for e.type ∧ L.id = i ∧ listenerAllowed cfg.one_shot L = true
  | TraceEntry.emitScheduled _ => True
  | TraceEntry.selfTriggerCalled _ => True

/-- A primary-port class discovered by the bootstrap: `priority` models a
callable class attribute `priority()` (absent = `none`), `default_priority`
a callable `default_priority()`, and `construct` the outcome of calling the
class's constructor `primaryPort()` — `Except.ok instanceId` on success,
`Except.error ()` when the constructor raises. -/
structure PrimaryPortClass where
  id : Nat
  priority : Option Int
  default_priority : Option Int
  construct : Except Unit Nat

/-- `PythonEDA.has_priority_class_method`: `hasattr(cls, "priority") and
callable(...)`. -/
def has_priority_class_method (p : PrimaryPortClass) : Bool :=
  p.priority.isSome

/-- `PythonEDA.has_default_priority_class_method`: `hasattr(cls,
"default_priority") and callable(...)`. -/
def has_default_priority_class_method (p : PrimaryPortClass) : Bool :=
  p.default_priority.isSome

/-- `PythonEDA.delegate_priority(primaryPort)`: `result = -1`; overwrite with
`default_priority()` if defined; then overwrite with `priority()` if
defined. -/
def delegate_priority (p : PrimaryPortClass) : Int :=
  let result : Int := -1
  let result := if has_default_priority_class_method p
    then p.default_priority.getD result else result
  if has_priority_class_method p then p.priority.getD result else result

/-- `PythonEDA.get_primary_port_instance(primaryPort)`: the body is
`return primaryPort()` — a bare constructor call whose exception, if any,
propagates to the caller. -/
def get_primary_port_instance (p : PrimaryPortClass) : Except Unit Nat :=
  p.construct

/-- Stable insertion into a list sorted ascending by `key`: the new element
goes before the first strictly-or-equally *later-keyed* element, after all
earlier elements with a key ≤ its own position, preserving the relative order
of equal keys (the behaviour of Python's stable `sorted`). -/
def insertByKey {α : Type} (key : α → Int) (x : α) : List α → List α
  | [] => [x]
  | y :: ys => if key x ≤ key y then x :: y :: ys else y :: insertByKey key x ys

/-- Stable ascending sort by `key`, modelling
`sorted(self.primary_ports, key=self.delegate_priority)`. -/
def sortByKey {α : Type} (key : α → Int) : List α → List α
  | [] => []
  | x :: xs => insertByKey key x (sortByKey key xs)

/-- One iteration of the first loop of `PythonEDA.accept_input`: instantiate
the primary port (a raised constructor error propagates and aborts the whole
loop) and append the instance. -/
def portStep (acc : Except Unit (List Nat)) (p : PrimaryPortClass) :
    Except Unit (List Nat) :=
  match acc with
  | Except.error e => Except.error e
  | Except.ok instances =>
    match get_primary_port_instance p with
    | Except.error e => Except.error e
    | Except.ok inst => Except.ok (instances ++ [inst])

/-- `PythonEDA.accept_input()`: sort the primary ports by
`delegate_priority`, instantiate each in order (first loop; a constructor
exception propagates, so later ports are not reached), then await
`entrypoint` on every non-`None` instance in the same order (second loop; a
constructor result is never `None`, so all collected instances are invoked).
The result is the ordered list of instances whose `entrypoint` runs, or
`Except.error ()` when an instantiation raised. -/
def accept_input (ports : List PrimaryPortClass) : Except Unit (List Nat) :=
  (sortByKey delegate_priority ports).foldl portStep (Except.ok [])

end Pythoneda

namespace Pythoneda

/-! Concrete configurations used by witnesses and counterexamples. -/

/-- C1 witness: event A (type 0). -/
def c1A : Event := ⟨0, 0⟩

/-- C1 witness: event B (type 1). -/
def c1B : Event := ⟨1, 0⟩

/-- C1 witness: listener L1, bound to A's type, returning `[B]`. -/
def c1L1 : Listener := ⟨1, false, true, fun _ => [c1B]⟩

/-- C1 witness: listener L2, bound to B's type, returning `[]`. -/
def c1L2 : Listener := ⟨2, false, true, fun _ => []⟩

/-- C1 witness configuration: L1 bound to type 0, L2 to type 1, no
self-triggers, one-shot off. -/
def c1Cfg : AppConfig :=
  { listeners_for := fun t => if t = 0 then [c1L1] else if t = 1 then [c1L2] else []
    maybe_trigger := fun _ => []
    one_shot := false
    event_emitters := [] }

/-- C2 counterexample: port with instance priority 5, registered first. -/
def c2cexP5 : PrimaryPortClass := ⟨0, some 5, none, Except.ok 0⟩

/-- C2 counterexample: port with instance priority 1, registered second. -/
def c2cexP1 : PrimaryPortClass := ⟨1, some 1, none, Except.ok 1⟩

/-- C2 counterexample: port with neither `priority()` nor
`default_priority()`, registered third. -/
def c2cexPU : PrimaryPortClass := ⟨2, none, none, Except.ok 2⟩

/-- C2 amended-claim witness ports: priorities 5, 1 and undefined. -/
def c2wP5 : PrimaryPortClass := ⟨0, some 5, none, Except.ok 100⟩

/-- C2 amended-claim witness ports: priority 1. -/
def c2wP1 : PrimaryPortClass := ⟨1, some 1, none, Except.ok 101⟩

/-- C2 amended-claim witness ports: no priority methods. -/
def c2wPU : PrimaryPortClass := ⟨2, none, none, Except.ok 102⟩

/-- C3 counterexample: a listener that is *not* a `PrimaryPort` subclass and
is marked not one-shot-compatible. -/
def c3cexListener : Listener := ⟨7, false, false, fun _ => []⟩

/-- C3 counterexample event (type 0). -/
def c3cexEvent : Event := ⟨0, 0⟩

/-- C3 counterexample configuration: one-shot mode on, the incompatible
non-primary listener bound to the dispatched type. -/
def c3cexCfg : AppConfig :=
  { listeners_for := fun t => if t = 0 then [c3cexListener] else []
    maybe_trigger := fun _ => []
    one_shot := true
    event_emitters := [] }

/-- C3 witness: a primary-port listener marked not one-shot-compatible. -/
def c3wListener : Listener := ⟨3, true, false, fun _ => []⟩

/-- C3 witness event (type 0). -/
def c3wEvent : Event := ⟨0, 0⟩

/-- C3 witness configuration (one-shot initially off; the witness toggles it
with `accept_one_shot`). -/
def c3wCfg : AppConfig :=
  { listeners_for := fun t => if t = 0 then [c3wListener] else []
    maybe_trigger := fun _ => []
    one_shot := false
    event_emitters := [] }

/-- C4 witness: event A (type 0). -/
def c4A : Event := ⟨0, 0⟩

/-- C4 witness: event C (type 1), returned by both listeners. -/
def c4C : Event := ⟨1, 0⟩

/-- C4 witness: first listener for A, returning `[C]`. -/
def c4L1 : Listener := ⟨1, false, true, fun _ => [c4C]⟩

/-- C4 witness: second listener for A, also returning `[C]`. -/
def c4L2 : Listener := ⟨2, false, true, fun _ => [c4C]⟩

/-- C4 witness configuration: both listeners bound to A's type. -/
def c4Cfg : AppConfig :=
  { listeners_for := fun t => if t = 0 then [c4L1, c4L2] else []
    maybe_trigger := fun _ => []
    one_shot := false
    event_emitters := [] }

/-- C5 failing input: a primary port whose constructor raises, sorted first
(priority 1). -/
def c5BadPort : PrimaryPortClass := ⟨10, some 1, none, Except.error ()⟩

/-- C5 failing input: a well-behaved primary port sorted second
(priority 2). -/
def c5GoodPort : PrimaryPortClass := ⟨11, some 2, none, Except.ok 11⟩

/-- C6 witness: the dispatched event E (type 0), with no listener bound. -/
def c6E : Event := ⟨0, 0⟩

/-- C6 witness: the event D produced by E's self-trigger. -/
def c6D : Event := ⟨1, 0⟩

/-- C6 witness configuration: no listeners at all; E self-triggers D. -/
def c6Cfg : AppConfig :=
  { listeners_for := fun _ => []
    maybe_trigger := fun e => if e.type = 0 then [c6D] else []
    one_shot := false
    event_emitters := [] }

/-- C8 witness: port with both `priority() = 7` and
`default_priority() = 3`. -/
def c8wP : PrimaryPortClass := ⟨0, some 7, some 3, Except.ok 0⟩

/-- C8 witness: port with only `default_priority() = 3`. -/
def c8wD : PrimaryPortClass := ⟨1, none, some 3, Except.ok 1⟩

/-- C8 witness: port with neither priority method. -/
def c8wN : PrimaryPortClass := ⟨2, none, none, Except.ok 2⟩

end Pythoneda

namespace Pythoneda

theorem acceptFuel_zero (cfg : AppConfig) (input : EventInput) :
    acceptFuel cfg 0 input =
      if (eventsOf input).isEmpty then some ([], []) else none := rfl

theorem acceptFuel_succ (cfg : AppConfig) (n : Nat) (input : EventInput) :
    acceptFuel cfg (n + 1) input =
      match (firstResult cfg (eventsOf input)).foldl
          (recurseStep (fun evt => acceptFuel cfg n (EventInput.one evt)))
          (some ([], (firstGeneration cfg (eventsOf input)).2)) with
      | none => none
      | some p =>
          some (extend_missing_items (firstResult cfg (eventsOf input)) p.1, p.2) := rfl

theorem listenerStep_snd (cfg : AppConfig) (event : Event)
    (st : List Event × List TraceEntry) (L : Listener) :
    (listenerStep cfg event st L).2 =
      if listenerAllowed cfg.one_shot L
      then st.2 ++ TraceEntry.listenerInvoked L.id event
            :: (L.accept event).map TraceEntry.emitScheduled
      else st.2 := by
  by_cases hall : listenerAllowed cfg.one_shot L = true
  · by_cases hres : (L.accept event).isEmpty = true <;>
      simp [listenerStep, hall, hres]
  · simp [listenerStep, hall]

theorem fanOutEvent_snd (cfg : AppConfig) (fe0 : List Event) (event : Event) :
    (fanOutEvent cfg fe0 event).2 =
      (fanOutListeners cfg event fe0).2 ++ [TraceEntry.selfTriggerCalled event] := by
  by_cases h : (cfg.maybe_trigger event).isEmpty = true <;> simp [fanOutEvent, h]

theorem eventStep_snd (cfg : AppConfig) (st : List Event × List TraceEntry)
    (event : Event) :
    (eventStep cfg st event).2 = st.2 ++ (fanOutEvent cfg st.1 event).2 := rfl

theorem listenerFold_trace_sound (cfg : AppConfig) (event : Event)
    (P : TraceEntry → Prop)
    (hemit : ∀ e, P (TraceEntry.emitScheduled e))
    (hinv : ∀ L, L ∈ cfg.listeners_for event.type →
      listenerAllowed cfg.one_shot L = true → P (TraceEntry.listenerInvoked L.id event)) :
    ∀ (ls : List Listener), (∀ L ∈ ls, L ∈ cfg.listeners_for event.type) →
      ∀ (st : List Event × List TraceEntry), (∀ x ∈ st.2, P x) →
        ∀ x ∈ (ls.foldl (listenerStep cfg event) st).2, P x := by
  intro ls
  induction ls with
  | nil => intro _ st hst x hx; exact hst x hx
  | cons L rest ih =>
    intro hsub st hst
    refine ih (fun L' h => hsub L' (List.mem_cons_of_mem _ h)) (listenerStep cfg event st L) ?_
    intro x hx
    rw [listenerStep_snd] at hx
    by_cases hall : listenerAllowed cfg.one_shot L = true
    · rw [if_pos hall] at hx
      rcases List.mem_append.mp hx with h | h
      · exact hst x h
      · rcases List.mem_cons.mp h with h | h
        · rw [h]; exact hinv L (hsub L (List.mem_cons_self _ _)) hall
        · rcases List.mem_map.mp h with ⟨e, _, he⟩
          rw [← he]; exact hemit e
    · rw [if_neg hall] at hx
      exact hst x hx

theorem fanOutListeners_trace_sound (cfg : AppConfig) (event : Event)
    (fe0 : List Event) (P : TraceEntry → Prop)
    (hemit : ∀ e, P (TraceEntry.emitScheduled e))
    (hinv : ∀ L, L ∈ cfg.listeners_for event.type →
      listenerAllowed cfg.one_shot L = true → P (TraceEntry.listenerInvoked L.id event)) :
    ∀ x ∈ (fanOutListeners cfg event fe0).2, P x :=
  listenerFold_trace_sound cfg event P hemit hinv _ (fun _ h => h) (fe0, [])
    (by intro x hx; cases hx)

theorem fanOutEvent_trace_sound (cfg : AppConfig) (P : TraceEntry → Prop)
    (hemit : ∀ e, P (TraceEntry.emitScheduled e))
    (hself : ∀ e, P (TraceEntry.selfTriggerCalled e))
    (hinv : ∀ (ev : Event) (L : Listener), L ∈ cfg.listeners_for ev.type →
      listenerAllowed cfg.one_shot L = true → P (TraceEntry.listenerInvoked L.id ev))
    (fe0 : List Event) (event : Event) :
    ∀ x ∈ (fanOutEvent cfg fe0 event).2, P x := by
  intro x hx
  rw [fanOutEvent_snd] at hx
  rcases List.mem_append.mp hx with h | h
  · exact fanOutListeners_trace_sound cfg event fe0 P hemit (hinv event) x h
  · rw [List.mem_singleton.mp h]; exact hself event

theorem eventFold_trace_sound (cfg : AppConfig) (P : TraceEntry → Prop)
    (hemit : ∀ e, P (TraceEntry.emitScheduled e))
    (hself : ∀ e, P (TraceEntry.selfTriggerCalled e))
    (hinv : ∀ (ev : Event) (L : Listener), L ∈ cfg.listeners_for ev.type →
      listenerAllowed cfg.one_shot L = true → P (TraceEntry.listenerInvoked L.id ev)) :
    ∀ (events : List Event) (st : List Event × List TraceEntry),
      (∀ x ∈ st.2, P x) → ∀ x ∈ (events.foldl (eventStep cfg) st).2, P x := by
  intro events
  induction events with
  | nil => intro st hst x hx; exact hst x hx
  | cons e rest ih =>
    intro st hst
    refine ih (eventStep cfg st e) ?_
    intro x hx
    rw [eventStep_snd] at hx
    rcases List.mem_append.mp hx with h | h
    · exact hst x h
    · exact fanOutEvent_trace_sound cfg P hemit hself hinv st.1 e x h

theorem firstGeneration_trace_sound (cfg : AppConfig) (P : TraceEntry → Prop)
    (hemit : ∀ e, P (TraceEntry.emitScheduled e))
    (hself : ∀ e, P (TraceEntry.selfTriggerCalled e))
    (hinv : ∀ (ev : Event) (L : Listener), L ∈ cfg.listeners_for ev.type →
      listenerAllowed cfg.one_shot L = true → P (TraceEntry.listenerInvoked L.id ev))
    (events : List Event) :
    ∀ x ∈ (firstGeneration cfg events).2, P x :=
  eventFold_trace_sound cfg P hemit hself hinv events ([], [])
    (by intro x hx; cases hx)

theorem recurseFold_trace_sound (P : TraceEntry → Prop)
    (f : Event → Option (List Event × List TraceEntry))
    (hf : ∀ evt q, f evt = some q → ∀ x ∈ q.2, P x) :
    ∀ (lst : List Event) (init : Option (List Event × List TraceEntry)),
      (∀ p, init = some p → ∀ x ∈ p.2, P x) →
      ∀ q, lst.foldl (recurseStep f) init = some q → ∀ x ∈ q.2, P x := by
  intro lst
  induction lst with
  | nil => intro init hinit q hq; exact hinit q hq
  | cons evt rest ih =>
    intro init hinit
    refine ih (recurseStep f init evt) ?_
    intro p hp
    cases init with
    | none => simp [recurseStep] at hp
    | some p0 =>
      cases hfe : f evt with
      | none => simp [recurseStep, hfe] at hp
      | some q' =>
        simp only [recurseStep, hfe, Option.some.injEq] at hp
        intro x hx
        rw [← hp] at hx
        rcases List.mem_append.mp hx with h | h
        · exact hinit p0 rfl x h
        · exact hf evt q' hfe x h

theorem acceptFuel_trace_sound (cfg : AppConfig) :
    ∀ (fuel : Nat) (input : EventInput) (p : List Event × List TraceEntry),
      acceptFuel cfg fuel input = some p → ∀ x ∈ p.2, soundEntry cfg x := by
  intro fuel
  induction fuel with
  | zero =>
    intro input p hp x hx
    rw [acceptFuel_zero] at hp
    by_cases h : (eventsOf input).isEmpty = true
    · rw [if_pos h] at hp
      injection hp with hp
      rw [← hp] at hx
      cases hx
    · rw [if_neg h] at hp; cases hp
  | succ n ih =>
    intro input p hp x hx
    rw [acceptFuel_succ] at hp
    cases hfold : (firstResult cfg (eventsOf input)).foldl
        (recurseStep (fun evt => acceptFuel cfg n (EventInput.one evt)))
        (some ([], (firstGeneration cfg (eventsOf input)).2)) with
    | none => rw [hfold] at hp; cases hp
    | some q =>
      rw [hfold] at hp
      injection hp with hp
      have hp2 : p.2 = q.2 := by rw [← hp]
      have hsound := recurseFold_trace_sound (soundEntry cfg)
        (fun evt => acceptFuel cfg n (EventInput.one evt))
        (fun evt q' hq' => ih (EventInput.one evt) q' hq')
        (firstResult cfg (eventsOf input))
        (some ([], (firstGeneration cfg (eventsOf input)).2))
        (by
          intro p0 hp0
          injection hp0 with hp0
          rw [← hp0]
          exact firstGeneration_trace_sound cfg (soundEntry cfg)
            (fun _ => trivial) (fun _ => trivial)
            (fun ev L hmem hall => ⟨L, hmem, rfl, hall⟩)
            (eventsOf input))
        q hfold
      rw [hp2] at hx
      exact hsound x hx

theorem acceptFuel_congr (cfg₁ cfg₂ : AppConfig)
    (hl : cfg₁.listeners_for = cfg₂.listeners_for)
    (ht : cfg₁.maybe_trigger = cfg₂.maybe_trigger)
    (ho : cfg₁.one_shot = cfg₂.one_shot) :
    ∀ (fuel : Nat) (input : EventInput),
      acceptFuel cfg₁ fuel input = acceptFuel cfg₂ fuel input := by
  have hls : listenerStep cfg₁ = listenerStep cfg₂ := by
    funext event st L
    simp [listenerStep, listenerAllowed, ho]
  have hfo : fanOutListeners cfg₁ = fanOutListeners cfg₂ := by
    funext event fe0
    rw [fanOutListeners, fanOutListeners, hl, hls]
  have hfe : fanOutEvent cfg₁ = fanOutEvent cfg₂ := by
    funext fe0 event
    rw [fanOutEvent, fanOutEvent, hfo, ht]
  have hes : eventStep cfg₁ = eventStep cfg₂ := by
    funext st event
    rw [eventStep, eventStep, hfe]
  have hfg : firstGeneration cfg₁ = firstGeneration cfg₂ := by
    funext events
    rw [firstGeneration, firstGeneration, hes]
  have hfr : firstResult cfg₁ = firstResult cfg₂ := by
    funext events
    rw [firstResult, firstResult, hfg]
  intro fuel
  induction fuel with
  | zero => intro input; rfl
  | succ n ih =>
    intro input
    rw [acceptFuel_succ cfg₁ n input, acceptFuel_succ cfg₂ n input, hfr, hfg]
    have hrec : (fun evt => acceptFuel cfg₁ n (EventInput.one evt))
        = (fun evt => acceptFuel cfg₂ n (EventInput.one evt)) := by
      funext evt; exact ih (EventInput.one evt)
    rw [hrec]

theorem emit_fold (e : Event) :
    ∀ (ems : List (Option Nat)) (acc : List (Nat × Event)),
      ems.foldl (emitStep e) acc = acc ++ (ems.filterMap id).map (fun i => (i, e)) := by
  intro ems
  induction ems with
  | nil => intro acc; simp
  | cons em rest ih =>
    intro acc
    cases em with
    | none => simp [List.foldl, emitStep, ih, List.filterMap_cons]
    | some i => simp [List.foldl, emitStep, ih, List.filterMap_cons, List.append_assoc]

theorem isEmpty_false_of_mem {α : Type} {a : α} {l : List α} (h : a ∈ l) :
    l.isEmpty = false := by
  cases l with
  | nil => cases h
  | cons x xs => rfl

theorem count_extend_missing_items_of_mem {α : Type} [DecidableEq α] {a : α}
    (s first : List α) (h : a ∈ first) :
    (extend_missing_items first s).count a = first.count a := by
  rw [count_extend_missing_items, if_pos h]

theorem listenerStep_fst (cfg : AppConfig) (event : Event)
    (st : List Event × List TraceEntry) (L : Listener)
    (hall : listenerAllowed cfg.one_shot L = true)
    (hne : L.accept event ≠ []) :
    (listenerStep cfg event st L).1 = extend_missing_items st.1 (L.accept event) := by
  have hres : (L.accept event).isEmpty = false := by
    cases h : L.accept event with
    | nil => exact absurd h hne
    | cons a l => rfl
  simp [listenerStep, hall, hres]

theorem fanOutEvent_fst (cfg : AppConfig) (fe0 : List Event) (event : Event) :
    (fanOutEvent cfg fe0 event).1 =
      if (cfg.maybe_trigger event).isEmpty then (fanOutListeners cfg event fe0).1
      else extend_missing_items (fanOutListeners cfg event fe0).1 (cfg.maybe_trigger event) := by
  by_cases h : (cfg.maybe_trigger event).isEmpty = true <;> simp [fanOutEvent, h]

theorem firstGeneration_single (cfg : AppConfig) (e : Event) :
    firstGeneration cfg [e] = fanOutEvent cfg [] e := by
  simp [firstGeneration, eventStep]

theorem acceptFuel_one_zero (cfg : AppConfig) (e : Event) :
    acceptFuel cfg 0 (EventInput.one e) = none := rfl

theorem acceptFuel_succ_inv (cfg : AppConfig) (n : Nat) (input : EventInput)
    (p : List Event × List TraceEntry)
    (h : acceptFuel cfg (n + 1) input = some p) :
    ∃ q, (firstResult cfg (eventsOf input)).foldl
        (recurseStep (fun evt => acceptFuel cfg n (EventInput.one evt)))
        (some ([], (firstGeneration cfg (eventsOf input)).2)) = some q ∧
      p = (extend_missing_items (firstResult cfg (eventsOf input)) q.1, q.2) := by
  rw [acceptFuel_succ] at h
  cases hfold : (firstResult cfg (eventsOf input)).foldl
      (recurseStep (fun evt => acceptFuel cfg n (EventInput.one evt)))
      (some ([], (firstGeneration cfg (eventsOf input)).2)) with
  | none => rw [hfold] at h; cases h
  | some q =>
    rw [hfold] at h
    injection h with h
    exact ⟨q, rfl, h.symm⟩

theorem acceptFuel_one_empty (cfg : AppConfig) (n : Nat) (e : Event)
    (h : (firstGeneration cfg [e]).1 = []) :
    acceptFuel cfg (n + 1) (EventInput.one e) =
      some ([], (firstGeneration cfg [e]).2) := by
  rw [acceptFuel_succ]
  have h1 : firstResult cfg (eventsOf (EventInput.one e)) = [] := by
    simp [firstResult, eventsOf, h]
  rw [h1]
  rfl

end Pythoneda

namespace Pythoneda

/-- C9: on falsy input (`None` or an empty event sequence) `accept` returns
the empty list, invokes no listener and calls no self-trigger (the trace is
empty), and never raises (it always returns a value), for every
configuration and every recursion budget. -/
theorem c9_falsy_input (cfg : AppConfig) (fuel : Nat) :
    acceptFuel cfg fuel EventInput.noEvent = some ([], []) ∧
    acceptFuel cfg fuel (EventInput.many []) = some ([], []) := by
  cases fuel with
  | zero => exact ⟨rfl, rfl⟩
  | succ n => exact ⟨rfl, rfl⟩

/-- C10: `extend_missing_items(first, second)` keeps `first` as an unchanged
left prefix and appends, in `second`'s order, exactly those elements of
`second` not already present in the accumulated list (`added_items`);
applying it again with the same `second` leaves the list unchanged
(idempotence). -/
theorem c10_extend_missing_items {α : Type} [DecidableEq α] (first second : List α) :
    extend_missing_items first second = first ++ added_items first second ∧
    extend_missing_items (extend_missing_items first second) second =
      extend_missing_items first second := by
  refine ⟨extend_missing_items_eq_append first second, ?_⟩
  exact extend_missing_items_of_forall_mem second _
    (fun x hx => mem_extend_missing_items_right second first hx)

/-- C8: `delegate_priority` returns the value of the port's `priority()`
method when present (overriding any `default_priority()`); when only
`default_priority()` is present it returns that value; when neither is
present it returns -1. -/
theorem c8_delegate_priority (p : PrimaryPortClass) :
    (∀ v, p.priority = some v → delegate_priority p = v) ∧
    (∀ d, p.priority = none → p.default_priority = some d → delegate_priority p = d) ∧
    (p.priority = none → p.default_priority = none → delegate_priority p = -1) := by
  refine ⟨?_, ?_, ?_⟩
  · intro v hv
    simp [delegate_priority, has_priority_class_method, hv]
  · intro d hp hd
    simp [delegate_priority, has_priority_class_method,
      has_default_priority_class_method, hp, hd]
  · intro hp hd
    simp [delegate_priority, has_priority_class_method,
      has_default_priority_class_method, hp, hd]

/-- C8 witness: `delegate_priority` at concrete ports with both methods, only
the default, and neither. -/
theorem c8_witness :
    delegate_priority c8wP = 7 ∧ delegate_priority c8wD = 3 ∧
      delegate_priority c8wN = -1 :=
  ⟨(c8_delegate_priority c8wP).1 7 rfl,
   (c8_delegate_priority c8wD).2.1 3 rfl rfl,
   (c8_delegate_priority c8wN).2.2 rfl rfl⟩

/-- C7: `emit` calls every non-`None` registered event-emitter adapter with
the event, in registration order; with zero adapters registered (or a falsy
event) it performs no calls and raises nothing; and the result of `accept`
is entirely independent of the event-emitter registry, so `accept` completes
and returns its full closure with no emitter registered. -/
theorem c7_emit_no_op :
    (∀ (cfg : AppConfig) (e : Event),
      emit { cfg with event_emitters := [] } (some e) = []) ∧
    (∀ (cfg : AppConfig) (e : Event),
      emit cfg (some e) = (cfg.event_emitters.filterMap id).map (fun i => (i, e))) ∧
    (∀ (cfg : AppConfig) (fuel : Nat) (input : EventInput),
      acceptFuel { cfg with event_emitters := [] } fuel input = acceptFuel cfg fuel input) ∧
    (∀ cfg : AppConfig, emit cfg none = []) := by
  refine ⟨fun cfg e => rfl, ?_, ?_, fun cfg => rfl⟩
  · intro cfg e
    rw [show emit cfg (some e) = cfg.event_emitters.foldl (emitStep e) [] from rfl,
      emit_fold]
    simp
  · intro cfg fuel input
    exact acceptFuel_congr { cfg with event_emitters := [] } cfg rfl rfl rfl fuel input

/-- C5: the claim describes the intended behaviour, but the code's
`get_primary_port_instance` is a bare `primaryPort()` call (the
`has_instance_method` / `has_constructor_with_app_argument` helpers are
never consulted) and `accept_input` has no try/except, so a port whose
constructor raises aborts `accept_input` before the remaining entry points
run; a well-behaved port alone is dispatched normally. -/
theorem c5_construction_failure_halts :
    accept_input [c5BadPort, c5GoodPort] = Except.error () ∧
    accept_input [c5GoodPort] = Except.ok [11] := by
  exact ⟨rfl, rfl⟩

/-- C2 counterexample: with registered priorities [5, 1, undefined] the code
sorts ascending by `delegate_priority`, and an undefined priority maps to
-1, which sorts *first*; `accept_input` therefore invokes instances in order
[2, 1, 0] (undefined, 1, 5), not [1, 0, 2] as the claim states. -/
theorem c2_priority_order_counterexample :
    accept_input [c2cexP5, c2cexP1, c2cexPU] = Except.ok [2, 1, 0] ∧
    ([2, 1, 0] : List Nat) ≠ [1, 0, 2] := by
  exact ⟨rfl, by decide⟩

/-- C2 corrected: `accept_input` invokes entry points in ascending
`delegate_priority` order, where an entry point exposing neither
`priority()` nor `default_priority()` gets priority -1 and therefore runs
*before* all entry points with higher priorities — for priorities
[5, 1, undefined] the order is [undefined, 1, 5]; ties keep registration
order (the sort is stable). -/
theorem c2_priority_order_amended
    (p5 p1 pU : PrimaryPortClass) (i5 i1 iU : Nat)
    (h5 : p5.priority = some 5) (h1 : p1.priority = some 1)
    (hU : pU.priority = none) (hUd : pU.default_priority = none)
    (hc5 : p5.construct = Except.ok i5) (hc1 : p1.construct = Except.ok i1)
    (hcU : pU.construct = Except.ok iU) :
    accept_input [p5, p1, pU] = Except.ok [iU, i1, i5] ∧
    (∀ (q1 q2 : PrimaryPortClass) (v : Int) (j1 j2 : Nat),
      q1.priority = some v → q2.priority = some v →
      q1.construct = Except.ok j1 → q2.construct = Except.ok j2 →
      accept_input [q1, q2] = Except.ok [j1, j2]) := by
  constructor
  · have k5 : delegate_priority p5 = 5 := by
      simp [delegate_priority, has_priority_class_method, h5]
    have k1 : delegate_priority p1 = 1 := by
      simp [delegate_priority, has_priority_class_method, h1]
    have kU : delegate_priority pU = -1 := by
      simp [delegate_priority, has_priority_class_method,
        has_default_priority_class_method, hU, hUd]
    have n1 : ¬((1 : Int) ≤ -1) := by decide
    have n2 : ¬((5 : Int) ≤ -1) := by decide
    have n3 : ¬((5 : Int) ≤ 1) := by decide
    have hsort : sortByKey delegate_priority [p5, p1, pU] = [pU, p1, p5] := by
      simp [sortByKey, insertByKey, k5, k1, kU, n1, n2, n3]
    rw [accept_input, hsort]
    simp [List.foldl, portStep, get_primary_port_instance, hc5, hc1, hcU]
  · intro q1 q2 v j1 j2 hq1 hq2 hcq1 hcq2
    have k1 : delegate_priority q1 = v := by
      simp [delegate_priority, has_priority_class_method, hq1]
    have k2 : delegate_priority q2 = v := by
      simp [delegate_priority, has_priority_class_method, hq2]
    have hsort : sortByKey delegate_priority [q1, q2] = [q1, q2] := by
      simp [sortByKey, insertByKey, k1, k2]
    rw [accept_input, hsort]
    simp [List.foldl, portStep, get_primary_port_instance, hcq1, hcq2]

/-- C2 witness: the amended ordering at concrete ports with priorities
[5, 1, undefined]. -/
theorem c2_witness :
    accept_input [c2wP5, c2wP1, c2wPU] = Except.ok [102, 101, 100] :=
  (c2_priority_order_amended c2wP5 c2wP1 c2wPU 100 101 102
    rfl rfl rfl rfl rfl rfl rfl).1

/-- C1: dispatch fixpoint — when the only listener bound to A's type is L1
returning exactly [B], the only listener bound to B's type is L2 returning
[], and neither event self-triggers (one-shot off), accept(A) returns
exactly [B], the input A itself excluded. The conclusion holds for every
sufficient recursion budget and acceptFuel is a pure function of its
arguments, so a second accept(A) call with no retained state returns the
same [B]. -/
theorem c1_dispatch_fixpoint (cfg : AppConfig) (A B : Event) (L1 L2 : Listener)
    (fuel : Nat)
    (hos : cfg.one_shot = false)
    (hA : cfg.listeners_for A.type = [L1])
    (hB : cfg.listeners_for B.type = [L2])
    (hL1 : L1.accept A = [B])
    (hL2 : L2.accept B = [])
    (hTA : cfg.maybe_trigger A = [])
    (hTB : cfg.maybe_trigger B = []) :
    (acceptFuel cfg (fuel + 2) (EventInput.one A)).map Prod.fst = some [B] := by
  have hall1 : listenerAllowed cfg.one_shot L1 = true := by
    simp [listenerAllowed, hos]
  have hall2 : listenerAllowed cfg.one_shot L2 = true := by
    simp [listenerAllowed, hos]
  have hfgB : (firstGeneration cfg [B]).1 = [] := by
    rw [firstGeneration_single, fanOutEvent_fst, hTB]
    simp only [List.isEmpty_nil, if_true]
    rw [fanOutListeners, hB]
    show (listenerStep cfg B ([], []) L2).1 = []
    simp [listenerStep, hall2, hL2]
  have hrunB : acceptFuel cfg (fuel + 1) (EventInput.one B) =
      some ([], (firstGeneration cfg [B]).2) :=
    acceptFuel_one_empty cfg fuel B hfgB
  have hfgA : (firstGeneration cfg [A]).1 = [B] := by
    rw [firstGeneration_single, fanOutEvent_fst, hTA]
    simp only [List.isEmpty_nil, if_true]
    rw [fanOutListeners, hA]
    show (listenerStep cfg A ([], []) L1).1 = [B]
    rw [listenerStep_fst cfg A ([], []) L1 hall1
      (by rw [hL1]; exact List.cons_ne_nil _ _)]
    rw [hL1]
    rfl
  have hres : firstResult cfg [A] = [B] := by
    rw [firstResult, hfgA]
    rfl
  have h2 : fuel + 2 = (fuel + 1) + 1 := rfl
  rw [h2, acceptFuel_succ]
  simp only [eventsOf]
  rw [hres]
  simp only [List.foldl_cons, List.foldl_nil, recurseStep, hrunB,
    extend_missing_items_nil]
  rfl

/-- C1 witness: the fixpoint scenario at concrete events and listeners. -/
theorem c1_witness :
    (acceptFuel c1Cfg 2 (EventInput.one c1A)).map Prod.fst = some [c1B] :=
  c1_dispatch_fixpoint c1Cfg c1A c1B c1L1 c1L2 0 rfl rfl rfl rfl rfl rfl rfl

/-- C4: dedup idempotence — with exactly two listeners bound to A's type,
both returning the (equality-)same event C among their results, any
completed accept(A) run returns a closure containing C exactly once. -/
theorem c4_dedup_once (cfg : AppConfig) (A C : Event) (L1 L2 : Listener)
    (fuel : Nat) (p : List Event × List TraceEntry)
    (hos : cfg.one_shot = false)
    (hA : cfg.listeners_for A.type = [L1, L2])
    (h1 : C ∈ L1.accept A)
    (h2 : C ∈ L2.accept A)
    (hacc : acceptFuel cfg fuel (EventInput.one A) = some p) :
    p.1.count C = 1 := by
  cases fuel with
  | zero => rw [acceptFuel_one_zero] at hacc; cases hacc
  | succ n =>
    have hall1 : listenerAllowed cfg.one_shot L1 = true := by
      simp [listenerAllowed, hos]
    have hall2 : listenerAllowed cfg.one_shot L2 = true := by
      simp [listenerAllowed, hos]
    have hne1 : L1.accept A ≠ [] := List.ne_nil_of_mem h1
    have hne2 : L2.accept A ≠ [] := List.ne_nil_of_mem h2
    have hfo : (fanOutListeners cfg A []).1
        = extend_missing_items (extend_missing_items [] (L1.accept A)) (L2.accept A) := by
      rw [fanOutListeners, hA]
      show (listenerStep cfg A (listenerStep cfg A ([], []) L1) L2).1 = _
      rw [listenerStep_fst cfg A _ L2 hall2 hne2,
        listenerStep_fst cfg A ([], []) L1 hall1 hne1]
    have hm1 : C ∈ extend_missing_items ([] : List Event) (L1.accept A) :=
      mem_extend_missing_items_right _ _ h1
    have hc1 : (extend_missing_items ([] : List Event) (L1.accept A)).count C = 1 := by
      rw [count_extend_missing_items]
      simp [h1]
    have hm2 : C ∈ (fanOutListeners cfg A []).1 := by
      rw [hfo]; exact mem_extend_missing_items_left _ _ hm1
    have hc2 : ((fanOutListeners cfg A []).1).count C = 1 := by
      rw [hfo, count_extend_missing_items_of_mem _ _ hm1]
      exact hc1
    have hmfe : C ∈ (fanOutEvent cfg [] A).1 := by
      rw [fanOutEvent_fst]
      by_cases h : (cfg.maybe_trigger A).isEmpty = true
      · rw [if_pos h]; exact hm2
      · rw [if_neg h]; exact mem_extend_missing_items_left _ _ hm2
    have hcfe : ((fanOutEvent cfg [] A).1).count C = 1 := by
      rw [fanOutEvent_fst]
      by_cases h : (cfg.maybe_trigger A).isEmpty = true
      · rw [if_pos h]; exact hc2
      · rw [if_neg h, count_extend_missing_items_of_mem _ _ hm2]; exact hc2
    have hmfg : C ∈ (firstGeneration cfg [A]).1 := by
      rw [firstGeneration_single]; exact hmfe
    have hcfg : ((firstGeneration cfg [A]).1).count C = 1 := by
      rw [firstGeneration_single]; exact hcfe
    have hfrEq : firstResult cfg [A] =
        extend_missing_items [] (firstGeneration cfg [A]).1 := by
      rw [firstResult]
      simp [isEmpty_false_of_mem hmfg]
    have hmfr : C ∈ firstResult cfg [A] := by
      rw [hfrEq]; exact mem_extend_missing_items_right _ _ hmfg
    have hcfr : (firstResult cfg [A]).count C = 1 := by
      rw [hfrEq, count_extend_missing_items]
      simp [hmfg]
    obtain ⟨q, _, hp⟩ := acceptFuel_succ_inv cfg n (EventInput.one A) p hacc
    rw [hp]
    show (extend_missing_items (firstResult cfg [A]) q.1).count C = 1
    rw [count_extend_missing_items_of_mem _ _ hmfr]
    exact hcfr

/-- C4 witness: the dedup scenario at concrete events and listeners; the
closure of A is [C] with C counted once. -/
theorem c4_witness : (([c4C] : List Event).count c4C) = 1 :=
  c4_dedup_once c4Cfg c4A c4C c4L1 c4L2 2
    ([c4C], [TraceEntry.listenerInvoked 1 c4A, TraceEntry.emitScheduled c4C,
             TraceEntry.listenerInvoked 2 c4A, TraceEntry.emitScheduled c4C,
             TraceEntry.selfTriggerCalled c4A, TraceEntry.selfTriggerCalled c4C])
    rfl rfl (List.mem_singleton.mpr rfl) (List.mem_singleton.mpr rfl) rfl

/-- C6: self-trigger composition — if E's self-trigger produces D and no
listener at all is bound to E's type, every completed accept(E) run includes
D in the returned closure. -/
theorem c6_self_trigger (cfg : AppConfig) (E D : Event) (fuel : Nat)
    (p : List Event × List TraceEntry)
    (hnoL : cfg.listeners_for E.type = [])
    (hD : D ∈ cfg.maybe_trigger E)
    (hacc : acceptFuel cfg fuel (EventInput.one E) = some p) :
    D ∈ p.1 := by
  cases fuel with
  | zero => rw [acceptFuel_one_zero] at hacc; cases hacc
  | succ n =>
    have hmfe : D ∈ (fanOutEvent cfg [] E).1 := by
      rw [fanOutEvent_fst]
      simp only [isEmpty_false_of_mem hD, Bool.false_eq_true, if_false]
      exact mem_extend_missing_items_right _ _ hD
    have hmfg : D ∈ (firstGeneration cfg [E]).1 := by
      rw [firstGeneration_single]; exact hmfe
    have hmfr : D ∈ firstResult cfg [E] := by
      rw [firstResult]
      simp only [isEmpty_false_of_mem hmfg, Bool.false_eq_true, if_false]
      exact mem_extend_missing_items_right _ _ hmfg
    obtain ⟨q, _, hp⟩ := acceptFuel_succ_inv cfg n (EventInput.one E) p hacc
    rw [hp]
    show D ∈ extend_missing_items (firstResult cfg [E]) q.1
    exact mem_extend_missing_items_left _ _ hmfr

/-- C6 witness: the self-trigger scenario at concrete events: the closure of
E is [D]. -/
theorem c6_witness : c6D ∈ ([c6D] : List Event) :=
  c6_self_trigger c6Cfg c6E c6D 2
    ([c6D], [TraceEntry.selfTriggerCalled c6E, TraceEntry.selfTriggerCalled c6D])
    rfl (List.mem_singleton.mpr rfl) rfl

/-- C3 counterexample: with the one-shot flag true, a listener that is
marked not one-shot-compatible but is NOT a PrimaryPort subclass IS invoked
(the code's filter only excludes primary-port listeners), so the claim as
stated fails: the trace of accept contains the invocation. -/
theorem c3_one_shot_counterexample :
    c3cexCfg.one_shot = true ∧
    c3cexListener.is_one_shot_compatible = false ∧
    c3cexListener.isPrimaryPort = false ∧
    c3cexListener ∈ c3cexCfg.listeners_for c3cexEvent.type ∧
    acceptFuel c3cexCfg 1 (EventInput.one c3cexEvent) =
      some ([], [TraceEntry.listenerInvoked 7 c3cexEvent,
                 TraceEntry.selfTriggerCalled c3cexEvent]) := by
  refine ⟨rfl, rfl, rfl, ?_, rfl⟩
  show c3cexListener ∈ [c3cexListener]
  exact List.mem_singleton.mpr rfl

/-- C3 corrected: after setting the one-shot flag through accept_one_shot
(the control handler), the next accept call never invokes any listener class
that is a PrimaryPort subclass and is marked not one-shot-compatible
(identified here by its id), whatever event types it is bound to; the claim
as stated omitted the primary-port condition. The flag is read from the
configuration each call receives, so an update takes effect on the next
call. -/
theorem c3_one_shot_amended (cfg : AppConfig) (i : Nat)
    (hL : ∀ (t : Nat) (L : Listener), L ∈ cfg.listeners_for t → L.id = i →
      L.isPrimaryPort = true ∧ L.is_one_shot_compatible = false)
    (fuel : Nat) (input : EventInput) (p : List Event × List TraceEntry)
    (hacc : acceptFuel (accept_one_shot cfg true) fuel input = some p) :
    ∀ e, TraceEntry.listenerInvoked i e ∉ p.2 := by
  intro e hmem
  have hsound := acceptFuel_trace_sound (accept_one_shot cfg true) fuel input p hacc
    (TraceEntry.listenerInvoked i e) hmem
  obtain ⟨L, hLmem, hid, hall⟩ := hsound
  have hLmem' : L ∈ cfg.listeners_for e.type := hLmem
  obtain ⟨hprim, hcompat⟩ := hL e.type L hLmem' hid
  have hone : (accept_one_shot cfg true).one_shot = true := rfl
  rw [listenerAllowed, hone, hprim, hcompat] at hall
  simp at hall

/-- C3 witness: a one-shot-incompatible primary-port listener is not in the
trace of the accept call following accept_one_shot(true). -/
theorem c3_witness :
    TraceEntry.listenerInvoked 3 c3wEvent ∉
      [TraceEntry.selfTriggerCalled c3wEvent] := by
  refine c3_one_shot_amended c3wCfg 3 ?_ 1 (EventInput.one c3wEvent)
    ([], [TraceEntry.selfTriggerCalled c3wEvent]) rfl c3wEvent
  intro t L hl hid
  by_cases ht : t = 0
  · subst ht
    have : L = c3wListener := by
      simpa [c3wCfg] using hl
    rw [this]
    exact ⟨rfl, rfl⟩
  · rw [show c3wCfg.listeners_for t = (if t = 0 then [c3wListener] else []) from rfl,
      if_neg ht] at hl
    cases hl

end Pythoneda
